import Mathlib

/- Verification of the terraform-analysis-agent repository.

   Shallow embedding of:
   - the ingestion pipeline scripts/process_data.py (file classifier
     get_file_type, the chunking loop and process_file / process_data),
   - the vector-store wrapper common/qdrant_client.py (QdrantDB:
     check_metadata_exists, delete_vectors_by_filter, upsert_vectors,
     query_vectors),
   - the MCP search server src/main.py (the search helper and the
     session-scoped irrelevant-file-paths list).

   Texts are modelled as List Char (Python str), the vector store as a
   List Point, and the external Qdrant engine's filter/query semantics as
   executable Lean functions: a filter matches a payload when every
   condition of its must list holds and no condition of its must_not list
   holds, and a similarity query ranks the filtered points by a score.
   Fallible operations return Except. -/

/-- Processing configuration constant MAX_CHARS of process_data.py. -/
def MAX_CHARS : Nat := 8000

/-- Processing configuration constant OVERLAP of process_data.py. -/
def OVERLAP : Nat := 1000

/-- Processing configuration constant CHUNK_BATCH_SIZE of process_data.py. -/
def CHUNK_BATCH_SIZE : Nat := 50

/-- Default value of the GITHUB_DIR configuration of process_data.py. -/
def GITHUB_DIR : String := "data/github"

/-- Sliding-window slicing loop of process_file (process_data.py):
start at 0, emit the slice of width maxChars at the current start offset and
advance the start offset by step, while the start offset is below the text
length.  The slice text from start of width maxChars is take maxChars of the
remaining suffix, and advancing the offset by step is dropping step elements
of that suffix, so the loop is modelled by recursion on the remaining suffix.
The same loop shape, with width = step = CHUNK_BATCH_SIZE, realises the batch
slicing for i in range(0, len(chunks), CHUNK_BATCH_SIZE) of process_file,
hence the element type is generic.  When step = 0 (overlap not below
maxChars) the Python loop never advances; that configuration is outside every
claim and the model returns [] there. -/
def chunkWindows {α : Type} (maxChars step : Nat) (text : List α) : List (List α) :=
  if text.isEmpty ∨ step = 0 then []
  else text.take maxChars :: chunkWindows maxChars step (text.drop step)
termination_by text.length
decreasing_by
  rename_i h
  push_neg at h
  have h1 : text.length ≠ 0 := by
    simpa [List.isEmpty_iff_length_eq_zero] using h.1
  simp only [List.length_drop]
  omega

/-- The chunker with the signature of the spec, chunk(text, max_chars,
overlap): windows of width max_chars advancing by max_chars - overlap. -/
def chunk (text : List Char) (maxChars overlap : Nat) : List (List Char) :=
  chunkWindows maxChars (maxChars - overlap) text

/-- Re-assembly operation of the round-trip property (spec section 8): keep
the first chunk whole, drop the first overlap characters of every later
chunk, and concatenate. -/
def reassemble (overlap : Nat) : List (List Char) → List Char
  | [] => []
  | c :: cs => c ++ (cs.map (fun d => d.drop overlap)).flatten

/-- FileType enum of common/qdrant_client.py. -/
inductive FileType where
  | CODE
  | DOCUMENT
  | TEST
  | NOT_SUPPORTED
deriving DecidableEq

/-- The string value of each FileType enum member. -/
def FileType.toValue : FileType → String
  | .CODE => "code"
  | .DOCUMENT => "document"
  | .TEST => "test"
  | .NOT_SUPPORTED => "not_supported"

/-- Python str.rfind for a single character: the index of its last
occurrence, or none. -/
def rfindChar (cs : List Char) (c : Char) : Option Nat :=
  match cs.reverse.findIdx? (fun x => x = c) with
  | some j => some (cs.length - 1 - j)
  | none => none

/-- Python substring containment needle in hay over characters. -/
def hasSub (hay needle : List Char) : Bool :=
  match hay with
  | [] => needle.isPrefixOf ([] : List Char)
  | c :: t => needle.isPrefixOf (c :: t) || hasSub t needle

/-- Python pathlib name of the slash-separated relative paths built by
process_file: the characters after the last slash (the whole path when it
has no slash). -/
def pathNameL (p : List Char) : List Char :=
  (p.reverse.takeWhile (fun c => !(c = '/' : Bool))).reverse

/-- Python pathlib suffix of a relative path: with name the final component
and i the index of the last dot in name, the characters of name from i on
when 0 < i < len(name) - 1, and empty otherwise (no dot, a leading dot as in
dotfiles, or a trailing dot). -/
def pathSuffixL (p : List Char) : List Char :=
  let name := pathNameL p
  match rfindChar name '.' with
  | some i => if 0 < i ∧ i < name.length - 1 then name.drop i else []
  | none => []

/-- Python str.lower restricted to the ASCII range, as used on file names. -/
def lowerL (cs : List Char) : List Char := cs.map Char.toLower

/-- The test-substring check of get_file_type: the string test occurs in the
lower-cased final path component. -/
def nameHasTest (p : String) : Bool :=
  hasSub (lowerL (pathNameL p.toList)) ("test".toList)

/-- get_file_type of process_data.py: match on the path suffix, first
against the CODE extension set, then the DOCUMENT set, then the
test-substring check on the file name, else NOT_SUPPORTED. -/
def get_file_type (p : String) : FileType :=
  if pathSuffixL p.toList = ".tf".toList ∨ pathSuffixL p.toList = ".go".toList then
    FileType.CODE
  else if pathSuffixL p.toList = ".md".toList then
    FileType.DOCUMENT
  else if nameHasTest p then
    FileType.TEST
  else
    FileType.NOT_SUPPORTED

/-- Payload of a stored point: the five fields written by process_file. -/
structure Payload where
  file_type : String
  file_path : String
  last_modified : String
  repo : String
  content : String
deriving DecidableEq

/-- A stored point: caller-generated id, embedding vector, payload.  The
vector entries are modelled as integers; only their ranking order is ever
observed. -/
structure Point where
  id : String
  vector : List Int
  payload : Payload
deriving DecidableEq

/-- Dictionary access payload.get(key) on the payload mapping. -/
def payloadGet (pl : Payload) (key : String) : Option String :=
  if key = "file_type" then some pl.file_type
  else if key = "file_path" then some pl.file_path
  else if key = "last_modified" then some pl.last_modified
  else if key = "repo" then some pl.repo
  else if key = "content" then some pl.content
  else none

/-- A field condition's match: MatchValue (exact equality) or MatchText
(textual containment) of the qdrant client models. -/
inductive FieldMatch where
  | value (v : String)
  | text (t : String)
deriving DecidableEq

/-- FieldCondition of the qdrant client models: a payload key and a match. -/
structure FieldCondition where
  key : String
  cond : FieldMatch
deriving DecidableEq

/-- Filter of the qdrant client models, restricted to the two clause kinds
the repository builds (must and must_not; should is never used). -/
structure QFilter where
  must : List FieldCondition
  must_not : List FieldCondition
deriving DecidableEq

/-- Whether one field condition holds of a payload: the keyed field exists
and satisfies the match. -/
def matchesCond (pl : Payload) (c : FieldCondition) : Bool :=
  match payloadGet pl c.key with
  | none => false
  | some s =>
    match c.cond with
    | .value v => decide (s = v)
    | .text t => hasSub s.toList t.toList

/-- Filter semantics of the external store: every must condition holds and
no must_not condition holds. -/
def matchesFilter (f : QFilter) (pl : Payload) : Bool :=
  f.must.all (fun c => matchesCond pl c) && f.must_not.all (fun c => !matchesCond pl c)

/-- Optional-filter semantics: no filter matches everything. -/
def matchesOpt (mf : Option QFilter) (pl : Payload) : Bool :=
  match mf with
  | none => true
  | some f => matchesFilter f pl

/-- QdrantDB.check_metadata_exists: the count of points matching the filter
is positive. -/
def check_metadata_exists (db : List Point) (f : QFilter) : Bool :=
  decide (0 < (db.filter (fun pt => matchesFilter f pt.payload)).length)

/-- QdrantDB.delete_vectors_by_filter: remove every point matching the
filter. -/
def delete_vectors_by_filter (db : List Point) (f : QFilter) : List Point :=
  db.filter (fun pt => !matchesFilter f pt.payload)

/-- QdrantDB.upsert_vectors: store the given points, overwriting any stored
point that shares an id with one of them. -/
def upsert_vectors (db : List Point) (pts : List Point) : List Point :=
  db.filter (fun p => pts.all (fun q => !(q.id = p.id : Bool))) ++ pts

/-- Similarity score of a point against a query vector, modelling the
store's cosine ranking abstractly as an inner product; only the induced
order is observable. -/
def score (v : List Int) (pt : Point) : Int :=
  ((v.zip pt.vector).map (fun p => p.1 * p.2)).sum

/-- Insert a point into a list sorted by descending score. -/
def insertRanked (sc : Point → Int) (pt : Point) : List Point → List Point
  | [] => [pt]
  | q :: qs => if sc q < sc pt then pt :: q :: qs else q :: insertRanked sc pt qs

/-- Rank points by descending score (the store's similarity ordering). -/
def rankPoints (sc : Point → Int) : List Point → List Point
  | [] => []
  | p :: ps => insertRanked sc p (rankPoints sc ps)

/-- The external engine's query_points: apply the filter, and when a query
vector is given rank the matches by similarity. -/
def query_points (db : List Point) (q : Option (List Int)) (f : Option QFilter) :
    List Point :=
  let filtered :=
    match f with
    | none => db
    | some flt => db.filter (fun pt => matchesFilter flt pt.payload)
  match q with
  | none => filtered
  | some v => rankPoints (score v) filtered

/-- QdrantDB.query_vectors of common/qdrant_client.py: raise ValueError when
neither a query vector nor a metadata filter is given; otherwise query and
return the file_path payload field of the first result, or none when there
is no result. -/
def query_vectors (db : List Point) (query_vector : Option (List Int))
    (metadata_filter : Option QFilter) : Except String (Option String) :=
  if query_vector = none ∧ metadata_filter = none then
    Except.error "Either query_vector or metadata_filter must be provided"
  else
    match query_points db query_vector metadata_filter with
    | [] => Except.ok none
    | r :: _ => Except.ok (payloadGet r.payload "file_path")

/-- The metadata filter built by process_file: file_path and last_modified
must both match exactly. -/
def fileFilter (relative_path last_modified : String) : QFilter :=
  { must := [{ key := "file_path", cond := FieldMatch.value relative_path },
             { key := "last_modified", cond := FieldMatch.value last_modified }],
    must_not := [] }

/-- One point built by process_file for chunk number i: a generated id, the
chunk's embedding, and the shared file metadata plus the chunk text. -/
def mkChunkPoint (idGen : Nat → String) (ftv rp lm repo : String) (i : Nat)
    (c : List Char) (vec : List Int) : Point :=
  { id := idGen i, vector := vec,
    payload := { file_type := ftv, file_path := rp, last_modified := lm,
                 repo := repo, content := String.mk c } }

/-- The point-building loop of process_file: slice the chunk list into
batches of CHUNK_BATCH_SIZE, embed each batch, pair each chunk of a batch
with its embedding, and build one point per pair.  The id generator models
uuid4, indexed by the point's position; embedFn models the embedding
gateway, one vector per input text. -/
def buildFilePoints (embedFn : List (List Char) → List (List Int))
    (idGen : Nat → String) (ftv rp lm repo : String) (chunks : List (List Char)) :
    List Point :=
  let pairs :=
    ((chunkWindows CHUNK_BATCH_SIZE CHUNK_BATCH_SIZE chunks).map
      (fun b => b.zip (embedFn b))).flatten
  pairs.enum.map (fun p => mkChunkPoint idGen ftv rp lm repo p.1 p.2.1 p.2.2)

/-- process_file of process_data.py over the store model.  The filesystem
reads of the source (relative path computation, modification time, file
content) are the function's inputs.  Returns the ids of the upserted points
together with the new store state.  Control flow of the source: a
NOT_SUPPORTED file is skipped; a file whose (file_path, last_modified) pair
already has a stored point is skipped; otherwise the store deletes by that
same pair filter, the text is chunked, embedded in batches, and the built
points are upserted. -/
def process_file (db : List Point) (embedFn : List (List Char) → List (List Int))
    (idGen : Nat → String) (repo_name relative_path last_modified : String)
    (text : List Char) : List String × List Point :=
  let file_type := get_file_type relative_path
  let mfilter := fileFilter relative_path last_modified
  if file_type = FileType.NOT_SUPPORTED then ([], db)
  else if check_metadata_exists db mfilter then ([], db)
  else
    let db1 := delete_vectors_by_filter db mfilter
    let chunks := chunkWindows MAX_CHARS (MAX_CHARS - OVERLAP) text
    let pts := buildFilePoints embedFn idGen file_type.toValue relative_path
      last_modified repo_name chunks
    (pts.map (fun p => p.id), upsert_vectors db1 pts)

/-- Whether an Except value is an error, modelling isinstance(r, Exception)
on a gathered task result. -/
def exceptIsError {ε α : Type} : Except ε α → Bool
  | .error _ => true
  | .ok _ => false

/-- The task list built by process_data: one (repository, file path) task
per file of every repository, in walk order. -/
def processTasks (repos : List (String × List String)) : List (String × String) :=
  (repos.map (fun r => r.2.map (fun f => (r.1, f)))).flatten

/-- process_data of process_data.py: with no repository directory report so;
otherwise run every file task (runFile models one wrapped_task: the
process_file call with its exception caught as an error value), gather all
results, and report the error count when positive, else success. -/
def process_data (repos : List (String × List String))
    (runFile : String × String → Except String (List String)) : String :=
  if repos = [] then
    "No local repositories found in " ++ GITHUB_DIR ++ "."
  else
    let results := (processTasks repos).map runFile
    let errors := results.filter exceptIsError
    if 0 < errors.length then
      "Processing completed with " ++ toString errors.length ++ " errors"
    else
      "Processing completed successfully"

/-- The repeated-query loop of the search helper of src/main.py: while fewer
than n_results paths are found, query with the fixed must conditions and one
must_not file_path condition per already-seen path; a returned non-empty
path is appended to the results and to the seen set, a missing or empty path
ends the loop.  seen starts as the session's irrelevant paths. -/
def searchLoop (db : List Point) (qv : Option (List Int))
    (must : List FieldCondition) (n : Int) (seen acc : List String) :
    Except String (List String) :=
  if _h : (acc.length : Int) < n then
    match query_vectors db qv
        (some { must := must,
                must_not := seen.map
                  (fun fp => { key := "file_path", cond := FieldMatch.value fp }) }) with
    | .error e => Except.error e
    | .ok none => Except.ok acc
    | .ok (some fp) =>
      if fp = "" then Except.ok acc
      else searchLoop db qv must n (fp :: seen) (acc ++ [fp])
  else
    Except.ok acc
termination_by (n - acc.length).toNat
decreasing_by
  simp only [List.length_append, List.length_cons, List.length_nil]
  omega

/-- The search helper of src/main.py: exactly one of prompt or keywords must
be given (ValueError otherwise); the filter requires a textual file_type
match plus, for keyword search, one content containment condition per
keyword; for prompt search the prompt is embedded (embedOne models taking
the first vector of the embedding call) and used as the query vector.  The
session's irrelevant paths seed the exclusion set. -/
def search_files (db : List Point) (embedOne : String → List Int)
    (file_type : String) (n_results : Int) (prompt : Option String)
    (keywords : Option (List String)) (irrelevant : List String) :
    Except String (List String) :=
  if prompt = none ∧ keywords = none then
    Except.error "Either prompt or keywords must be provided"
  else if ¬prompt = none ∧ ¬keywords = none then
    Except.error "Only one of prompt or keywords should be provided"
  else
    let must := { key := "file_type", cond := FieldMatch.text file_type } ::
      (match keywords with
       | some ks =>
         ks.map (fun k => ({ key := "content", cond := FieldMatch.text k } :
           FieldCondition))
       | none => [])
    searchLoop db (prompt.map embedOne) must n_results irrelevant []

/-- The session operations of src/main.py that mutate the session-scoped
irrelevant-file-paths list: the update tool extends it, the reset tool
clears it.  The search tools read it without mutating it. -/
inductive SessionOp where
  | update (ps : List String)
  | reset
deriving DecidableEq

/-- One session operation applied to the irrelevant-file-paths list:
update_irrelevant_file_paths extends the list with the given paths,
reset_irrelevant_file_paths replaces it by the empty list. -/
def irrelevantStep (st : List String) (op : SessionOp) : List String :=
  match op with
  | .update ps => st ++ ps
  | .reset => []

/-- The irrelevant-file-paths list after a session's operation sequence,
starting from the empty list of the lifespan context. -/
def irrelevantAfter (ops : List SessionOp) : List String :=
  ops.foldl irrelevantStep []

/-- Embedding-function stub for concrete scenarios: one unit vector per
input text. -/
def sampleEmbed : List (List Char) → List (List Int) :=
  fun bs => bs.map (fun _ => [1])

/-- Single-text embedding stub for concrete search scenarios. -/
def sampleEmbedOne : String → List Int := fun _ => [1]

/-- Id-generator stub for concrete scenarios: a fresh id per index. -/
def sampleIdGen : Nat → String := fun i => "new-" ++ toString i

/-- A stored point for file repo/main.tf carrying an old modification
timestamp t1, for the change-detection scenario. -/
def stalePoint : Point :=
  { id := "old-0", vector := [1],
    payload := { file_type := "code", file_path := "repo/main.tf",
                 last_modified := "t1", repo := "repo", content := "old" } }

/-- A stored code point for file a.tf, for search scenarios. -/
def pointA : Point :=
  { id := "ida", vector := [1],
    payload := { file_type := "code", file_path := "a.tf",
                 last_modified := "t1", repo := "repo", content := "alpha" } }

/-- A stored code point for file b.tf, for search scenarios. -/
def pointB : Point :=
  { id := "idb", vector := [1],
    payload := { file_type := "code", file_path := "b.tf",
                 last_modified := "t1", repo := "repo", content := "beta" } }

/-- File-task stub for the aggregate-status scenario: the task of file a
fails, every other task succeeds. -/
def sampleRunFile : String × String → Except String (List String) :=
  fun t => if t.2 = "a" then Except.error "boom" else Except.ok []

/-- The empty text yields no chunks. -/
theorem chunkWindows_nil {α : Type} (m step : Nat) :
    chunkWindows m step ([] : List α) = [] := by
  rw [chunkWindows]
  simp

/-- One unfolding of the slicing loop on a non-empty text with a positive
step. -/
theorem chunkWindows_cons {α : Type} (m step : Nat) (text : List α)
    (h1 : text ≠ []) (h2 : step ≠ 0) :
    chunkWindows m step text =
      text.take m :: chunkWindows m step (text.drop step) := by
  rw [chunkWindows]
  rw [if_neg]
  simp [List.isEmpty_iff, h1, h2]

/-- A non-empty text no longer than the step yields a single window. -/
theorem chunkWindows_single {α : Type} (m step : Nat) (text : List α)
    (h1 : text ≠ []) (h2 : text.length ≤ step) (h3 : step ≠ 0) :
    chunkWindows m step text = [text.take m] := by
  rw [chunkWindows_cons m step text h1 h3]
  rw [List.drop_eq_nil_of_le h2, chunkWindows_nil]

/-- Dropping the first overlap characters of every chunk (the first one
included) and concatenating yields the text minus its first overlap
characters. -/
theorem chunk_flatten_drop (m o : Nat) (ho : o < m) (text : List Char) :
    ((chunkWindows m (m - o) text).map (fun c => c.drop o)).flatten =
      text.drop o := by
  have key : ∀ (k : Nat) (t : List Char), t.length ≤ k →
      ((chunkWindows m (m - o) t).map (fun c => c.drop o)).flatten = t.drop o := by
    intro k
    induction k with
    | zero =>
      intro t ht
      have hnil : t = [] := by
        cases t with
        | nil => rfl
        | cons a l => simp at ht
      subst hnil
      simp [chunkWindows_nil]
    | succ k ih =>
      intro t ht
      by_cases hnil : t = []
      · subst hnil
        simp [chunkWindows_nil]
      · have hstep : m - o ≠ 0 := by omega
        have hpos : 0 < t.length := List.length_pos.mpr hnil
        rw [chunkWindows_cons m (m - o) t hnil hstep]
        rw [List.map_cons, List.flatten_cons]
        have hlen : (t.drop (m - o)).length ≤ k := by
          simp only [List.length_drop]
          omega
        rw [ih (t.drop (m - o)) hlen]
        rw [List.drop_take, List.drop_drop]
        have hmo : m - o + o = m := by omega
        rw [hmo]
        have h2 : t.drop m = (t.drop o).drop (m - o) := by
          rw [List.drop_drop]
          congr 1
          omega
        rw [h2, List.take_append_drop]
  exact key text.length text le_rfl

/-- C4: for every text and every pair (max_chars, overlap) with
0 <= overlap < max_chars, re-assembling the chunker's output by dropping the
first overlap characters of every chunk after the first and concatenating
reproduces the original text exactly. -/
theorem chunk_roundtrip (text : List Char) (maxChars overlap : Nat)
    (h : overlap < maxChars) :
    reassemble overlap (chunk text maxChars overlap) = text := by
  by_cases hnil : text = []
  · subst hnil
    simp [chunk, chunkWindows_nil, reassemble]
  · have hstep : maxChars - overlap ≠ 0 := by omega
    rw [chunk, chunkWindows_cons _ _ text hnil hstep]
    simp only [reassemble]
    rw [chunk_flatten_drop maxChars overlap h (text.drop (maxChars - overlap))]
    rw [List.drop_drop]
    have hmo : maxChars - overlap + overlap = maxChars := by omega
    rw [hmo, List.take_append_drop]

/-- Witness for chunk_roundtrip: the text ab with max_chars 3, overlap 1. -/
theorem chunk_roundtrip_witness :
    reassemble 1 (chunk ("ab".toList) 3 1) = "ab".toList :=
  chunk_roundtrip ("ab".toList) 3 1 (by decide)

/-- Every window the slicing loop emits has length at most the width. -/
theorem chunkWindows_chunk_length {α : Type} (m step : Nat) (text : List α) :
    ∀ c ∈ chunkWindows m step text, c.length ≤ m := by
  have key : ∀ (k : Nat) (t : List α), t.length ≤ k →
      ∀ c ∈ chunkWindows m step t, c.length ≤ m := by
    intro k
    induction k with
    | zero =>
      intro t ht c hc
      have hnil : t = [] := by
        cases t with
        | nil => rfl
        | cons a l => simp at ht
      subst hnil
      rw [chunkWindows_nil] at hc
      simp at hc
    | succ k ih =>
      intro t ht c hc
      by_cases hnil : t = []
      · subst hnil
        rw [chunkWindows_nil] at hc
        simp at hc
      · by_cases hstep : step = 0
        · subst hstep
          rw [chunkWindows] at hc
          simp at hc
        · have hpos : 0 < t.length := List.length_pos.mpr hnil
          rw [chunkWindows_cons m step t hnil hstep] at hc
          rcases List.mem_cons.mp hc with hc | hc
          · subst hc
            exact List.length_take_le m t
          · have hlen : (t.drop step).length ≤ k := by
              simp only [List.length_drop]
              omega
            exact ih (t.drop step) hlen c hc
  exact key text.length text le_rfl

/-- The window at index j starts at offset j * step: element formula for the
slicing loop. -/
theorem chunkWindows_getq {α : Type} (m step : Nat) (text : List α) (j : Nat)
    (hj : j < (chunkWindows m step text).length) :
    (chunkWindows m step text)[j]? = some ((text.drop (j * step)).take m) := by
  have key : ∀ (k : Nat) (t : List α), t.length ≤ k → ∀ (i : Nat),
      i < (chunkWindows m step t).length →
      (chunkWindows m step t)[i]? = some ((t.drop (i * step)).take m) := by
    intro k
    induction k with
    | zero =>
      intro t ht i hi
      have hnil : t = [] := by
        cases t with
        | nil => rfl
        | cons a l => simp at ht
      subst hnil
      rw [chunkWindows_nil] at hi
      simp at hi
    | succ k ih =>
      intro t ht i hi
      by_cases hnil : t = []
      · subst hnil
        rw [chunkWindows_nil] at hi
        simp at hi
      · by_cases hstep : step = 0
        · subst hstep
          rw [chunkWindows] at hi
          simp at hi
        · have hpos : 0 < t.length := List.length_pos.mpr hnil
          rw [chunkWindows_cons m step t hnil hstep] at hi ⊢
          cases i with
          | zero =>
            simp
          | succ i =>
            rw [List.getElem?_cons_succ]
            have hlen : (t.drop step).length ≤ k := by
              simp only [List.length_drop]
              omega
            have hi2 : i < (chunkWindows m step (t.drop step)).length := by
              simpa using Nat.lt_of_succ_lt_succ hi
            rw [ih (t.drop step) hlen i hi2]
            rw [List.drop_drop]
            congr 2
            ring_nf
  exact key text.length text le_rfl j hj

/-- C9 counterexample: 2 < 3, so (max_chars, overlap) = (3, 2) is a valid
configuration, and the text ab is non-empty and shorter than max_chars, yet
the chunker emits two chunks, not the single whole-text chunk the claim
states: the loop advances by max_chars - overlap = 1, which is below the
text length. -/
theorem short_text_two_chunks :
    ("ab".toList).length < 3 ∧ 2 < 3 ∧
    chunk ("ab".toList) 3 2 = ["ab".toList, ['b']] ∧
    ¬chunk ("ab".toList) 3 2 = ["ab".toList] := by
  have h : chunk ("ab".toList) 3 2 = ["ab".toList, ['b']] := by
    simp [chunk, chunkWindows]
  refine ⟨by decide, by decide, h, ?_⟩
  rw [h]
  decide

/-- C9 (amended): for overlap < max_chars, every produced chunk has length
at most max_chars; the empty text yields the empty chunk sequence; a
non-empty text of length at most max_chars - overlap yields exactly one
chunk equal to the whole text (amended from the claimed bound max_chars: for
a text longer than max_chars - overlap the loop advances and emits a second
chunk even when the text is shorter than max_chars); and each chunk after
the first begins with the last overlap characters of its full-length
predecessor. -/
theorem chunk_shape_amended (maxChars overlap : Nat) (h : overlap < maxChars) :
    (∀ (text : List Char), ∀ c ∈ chunk text maxChars overlap, c.length ≤ maxChars)
    ∧ chunk [] maxChars overlap = []
    ∧ (∀ (text : List Char), text ≠ [] → text.length ≤ maxChars - overlap →
        chunk text maxChars overlap = [text])
    ∧ (∀ (text : List Char) (i : Nat)
        (h1 : i < (chunk text maxChars overlap).length)
        (h2 : i + 1 < (chunk text maxChars overlap).length),
        ((chunk text maxChars overlap).get ⟨i, h1⟩).length = maxChars →
        ((chunk text maxChars overlap).get ⟨i + 1, h2⟩).take overlap =
          ((chunk text maxChars overlap).get ⟨i, h1⟩).drop (maxChars - overlap)) := by
  have hstep : maxChars - overlap ≠ 0 := by omega
  refine ⟨?_, ?_, ?_, ?_⟩
  · intro text c hc
    exact chunkWindows_chunk_length maxChars (maxChars - overlap) text c hc
  · exact chunkWindows_nil maxChars (maxChars - overlap)
  · intro text hnil hlen
    rw [chunk, chunkWindows_single maxChars (maxChars - overlap) text hnil hlen hstep]
    rw [List.take_of_length_le (by omega)]
  · intro text i h1 h2 _hfull
    have h1w : i < (chunkWindows maxChars (maxChars - overlap) text).length := h1
    have h2w : i + 1 < (chunkWindows maxChars (maxChars - overlap) text).length := h2
    have e1 := chunkWindows_getq maxChars (maxChars - overlap) text i h1w
    have e2 := chunkWindows_getq maxChars (maxChars - overlap) text (i + 1) h2w
    rw [List.getElem?_eq_getElem h1w] at e1
    rw [List.getElem?_eq_getElem h2w] at e2
    show ((chunkWindows maxChars (maxChars - overlap) text).get ⟨i + 1, h2w⟩).take overlap =
      ((chunkWindows maxChars (maxChars - overlap) text).get ⟨i, h1w⟩).drop (maxChars - overlap)
    rw [List.get_eq_getElem, List.get_eq_getElem]
    rw [Option.some_inj.mp e1, Option.some_inj.mp e2]
    rw [List.take_take, Nat.min_eq_left h.le]
    rw [List.drop_take, List.drop_drop]
    have hxx : maxChars - (maxChars - overlap) = overlap := by omega
    have hyy : i * (maxChars - overlap) + (maxChars - overlap) =
        (i + 1) * (maxChars - overlap) := by ring
    rw [hxx, hyy]

/-- C5: the classifier checks extensions before the test substring: a path
with suffix .tf or .go is CODE and one with suffix .md is DOCUMENT even if
its name contains test; otherwise a name containing test (case-insensitive)
is TEST, and anything else is NOT_SUPPORTED; with the four concrete
classifications of the claim. -/
theorem classifier_extension_precedence :
    (∀ p : String,
      pathSuffixL p.toList = ".tf".toList ∨ pathSuffixL p.toList = ".go".toList →
      get_file_type p = FileType.CODE)
    ∧ (∀ p : String, pathSuffixL p.toList = ".md".toList →
        get_file_type p = FileType.DOCUMENT)
    ∧ (∀ p : String,
        ¬(pathSuffixL p.toList = ".tf".toList ∨ pathSuffixL p.toList = ".go".toList) →
        ¬pathSuffixL p.toList = ".md".toList →
        nameHasTest p = true → get_file_type p = FileType.TEST)
    ∧ (∀ p : String,
        ¬(pathSuffixL p.toList = ".tf".toList ∨ pathSuffixL p.toList = ".go".toList) →
        ¬pathSuffixL p.toList = ".md".toList →
        nameHasTest p = false → get_file_type p = FileType.NOT_SUPPORTED)
    ∧ get_file_type "main.tf" = FileType.CODE
    ∧ get_file_type "README.md" = FileType.DOCUMENT
    ∧ get_file_type "handler_test.go" = FileType.CODE
    ∧ get_file_type "notes.txt" = FileType.NOT_SUPPORTED := by
  refine ⟨?_, ?_, ?_, ?_, by decide, by decide, by decide, by decide⟩
  · intro p hp
    rw [get_file_type, if_pos hp]
  · intro p hp
    have hne : ¬(pathSuffixL p.toList = ".tf".toList ∨
        pathSuffixL p.toList = ".go".toList) := by
      rw [hp]
      decide
    rw [get_file_type, if_neg hne, if_pos hp]
  · intro p h1 h2 h3
    rw [get_file_type, if_neg h1, if_neg h2, if_pos h3]
  · intro p h1 h2 h3
    rw [get_file_type, if_neg h1, if_neg h2, if_neg (by simp [h3])]

/-- Witness for classifier_extension_precedence: a path whose name contains
test but whose suffix is .tf is classified CODE by the extension check. -/
theorem classifier_extension_precedence_witness :
    get_file_type "module_test.tf" = FileType.CODE :=
  classifier_extension_precedence.1 "module_test.tf" (Or.inl (by decide))

/-- The file_path payload field always exists. -/
theorem payloadGet_file_path (pl : Payload) :
    payloadGet pl "file_path" = some pl.file_path := by
  simp [payloadGet]

/-- The metadata filter of process_file matches a payload exactly when both
its file_path and last_modified fields equal the given values. -/
theorem matchesFilter_fileFilter (rp lm : String) (pl : Payload) :
    matchesFilter (fileFilter rp lm) pl = true ↔
      pl.file_path = rp ∧ pl.last_modified = lm := by
  simp [matchesFilter, fileFilter, matchesCond, payloadGet]

/-- C6: for every file for which a stored point exists with file_path equal
to the file's relative path and last_modified equal to its current
modification timestamp, process_file skips it: empty result, no delete, no
embed, no upsert, store unchanged. -/
theorem unchanged_file_skipped (db : List Point)
    (embedFn : List (List Char) → List (List Int)) (idGen : Nat → String)
    (repo_name relative_path last_modified : String) (text : List Char)
    (hex : ∃ pt ∈ db, pt.payload.file_path = relative_path ∧
      pt.payload.last_modified = last_modified) :
    process_file db embedFn idGen repo_name relative_path last_modified text =
      ([], db) := by
  obtain ⟨pt, hmem, hfp, hlm⟩ := hex
  have hcheck :
      check_metadata_exists db (fileFilter relative_path last_modified) = true := by
    rw [check_metadata_exists, decide_eq_true_iff]
    apply List.length_pos_of_mem (a := pt)
    rw [List.mem_filter]
    exact ⟨hmem, (matchesFilter_fileFilter _ _ _).mpr ⟨hfp, hlm⟩⟩
  simp only [process_file]
  by_cases hft : get_file_type relative_path = FileType.NOT_SUPPORTED
  · rw [if_pos hft]
  · rw [if_neg hft, if_pos hcheck]

/-- Witness for unchanged_file_skipped: the stored point for repo/main.tf
with timestamp t1 makes a re-run with the same timestamp a no-op. -/
theorem unchanged_file_skipped_witness :
    process_file [stalePoint] sampleEmbed sampleIdGen "repo" "repo/main.tf"
      "t1" ("x".toList) = ([], [stalePoint]) :=
  unchanged_file_skipped [stalePoint] sampleEmbed sampleIdGen "repo"
    "repo/main.tf" "t1" ("x".toList)
    ⟨stalePoint, by decide, by decide, by decide⟩

/-- C3 counterexample: the file repo/run_test.txt is classified TEST, yet
process_file does not skip it: only NOT_SUPPORTED is checked, so the file is
chunked, embedded and upserted, returning one point id and growing the
store. -/
theorem test_file_is_ingested :
    get_file_type "repo/run_test.txt" = FileType.TEST ∧
    ¬(process_file [] sampleEmbed sampleIdGen "repo" "repo/run_test.txt" "t1"
        ("hello".toList)).1 = [] ∧
    (process_file [] sampleEmbed sampleIdGen "repo" "repo/run_test.txt" "t1"
        ("hello".toList)).2.length = 1 := by
  have hchunk : chunkWindows MAX_CHARS (MAX_CHARS - OVERLAP) ("hello".toList) =
      [("hello".toList)] := by
    rw [chunkWindows_single MAX_CHARS (MAX_CHARS - OVERLAP) ("hello".toList)
      (by decide) (by decide) (by decide)]
    rw [List.take_of_length_le (by decide)]
  have hbatch : chunkWindows CHUNK_BATCH_SIZE CHUNK_BATCH_SIZE
      [("hello".toList)] = [[("hello".toList)]] := by
    rw [chunkWindows_single CHUNK_BATCH_SIZE CHUNK_BATCH_SIZE [("hello".toList)]
      (by decide) (by decide) (by decide)]
    rw [List.take_of_length_le (by decide)]
  refine ⟨by decide, ?_, ?_⟩
  · simp only [process_file, hchunk, hbatch, buildFilePoints]
    decide
  · simp only [process_file, hchunk, hbatch, buildFilePoints]
    decide

/-- C3 (amended): only a NOT_SUPPORTED classification makes process_file
skip the file with no action (empty result, store unchanged); a TEST file is
not excluded from ingestion but processed like CODE and DOCUMENT files, as
the counterexample evaluates. -/
theorem not_supported_skips (db : List Point)
    (embedFn : List (List Char) → List (List Int)) (idGen : Nat → String)
    (repo_name relative_path last_modified : String) (text : List Char)
    (h : get_file_type relative_path = FileType.NOT_SUPPORTED) :
    process_file db embedFn idGen repo_name relative_path last_modified text =
      ([], db) := by
  simp only [process_file]
  rw [if_pos h]

/-- Witness for not_supported_skips: repo/notes.json is NOT_SUPPORTED and
skipped. -/
theorem not_supported_skips_witness :
    process_file [] sampleEmbed sampleIdGen "repo" "repo/notes.json" "t1"
      ("x".toList) = ([], []) :=
  not_supported_skips [] sampleEmbed sampleIdGen "repo" "repo/notes.json" "t1"
    ("x".toList) (by decide)

/-- C1: change-detection scenario evaluated on the code.  The store holds
one point for repo/main.tf with the old timestamp t1; the file is
re-ingested with new timestamp t2 and a one-chunk text.  The delete filter
of process_file requires file_path AND the new last_modified - the very
filter whose existence check has just returned false - so the delete removes
nothing (second conjunct) and afterwards the store holds old + new = 2
points for the file_path, not the new chunk count 1 (first and third
conjuncts), contradicting the claimed delete on file_path alone. -/
theorem stale_points_survive_change :
    (chunkWindows MAX_CHARS (MAX_CHARS - OVERLAP) ("fresh".toList)).length = 1 ∧
    delete_vectors_by_filter [stalePoint] (fileFilter "repo/main.tf" "t2") =
      [stalePoint] ∧
    ((process_file [stalePoint] sampleEmbed sampleIdGen "repo" "repo/main.tf"
        "t2" ("fresh".toList)).2.filter
      (fun pt => pt.payload.file_path == "repo/main.tf")).length = 2 := by
  have hchunk : chunkWindows MAX_CHARS (MAX_CHARS - OVERLAP) ("fresh".toList) =
      [("fresh".toList)] := by
    rw [chunkWindows_single MAX_CHARS (MAX_CHARS - OVERLAP) ("fresh".toList)
      (by decide) (by decide) (by decide)]
    rw [List.take_of_length_le (by decide)]
  have hbatch : chunkWindows CHUNK_BATCH_SIZE CHUNK_BATCH_SIZE
      [("fresh".toList)] = [[("fresh".toList)]] := by
    rw [chunkWindows_single CHUNK_BATCH_SIZE CHUNK_BATCH_SIZE [("fresh".toList)]
      (by decide) (by decide) (by decide)]
    rw [List.take_of_length_le (by decide)]
  refine ⟨by rw [hchunk]; rfl, by decide, ?_⟩
  simp only [process_file, hchunk, hbatch, buildFilePoints]
  decide

/-- Membership is preserved by ranked insertion. -/
theorem mem_insertRanked (sc : Point → Int) (pt q : Point) (l : List Point) :
    q ∈ insertRanked sc pt l ↔ q = pt ∨ q ∈ l := by
  induction l with
  | nil => simp [insertRanked]
  | cons a t ih =>
    simp only [insertRanked]
    by_cases hlt : sc a < sc pt
    · rw [if_pos hlt]
      simp [List.mem_cons]
    · rw [if_neg hlt]
      simp only [List.mem_cons, ih]
      tauto

/-- Ranking points by score does not change the set of points. -/
theorem mem_rankPoints (sc : Point → Int) (l : List Point) (q : Point) :
    q ∈ rankPoints sc l ↔ q ∈ l := by
  induction l with
  | nil => simp [rankPoints]
  | cons a t ih =>
    simp only [rankPoints, mem_insertRanked, ih, List.mem_cons]

/-- Every query result is a stored point passing the filter. -/
theorem query_points_sub (db : List Point) (qv : Option (List Int))
    (mf : Option QFilter) (r : Point) (h : r ∈ query_points db qv mf) :
    r ∈ db ∧ matchesOpt mf r.payload = true := by
  simp only [query_points] at h
  cases mf with
  | none =>
    cases qv with
    | none => exact ⟨h, rfl⟩
    | some v => exact ⟨(mem_rankPoints _ _ _).mp h, rfl⟩
  | some f =>
    cases qv with
    | none =>
      have := List.mem_filter.mp h
      exact ⟨this.1, this.2⟩
    | some v =>
      have := List.mem_filter.mp ((mem_rankPoints _ _ _).mp h)
      exact ⟨this.1, this.2⟩

/-- The query result list is empty exactly when no stored point passes the
filter. -/
theorem query_points_eq_nil (db : List Point) (qv : Option (List Int))
    (mf : Option QFilter) :
    query_points db qv mf = [] ↔ ∀ pt ∈ db, ¬matchesOpt mf pt.payload = true := by
  constructor
  · intro h pt hmem hmatch
    have hin : pt ∈ query_points db qv mf := by
      simp only [query_points]
      cases mf with
      | none =>
        cases qv with
        | none => exact hmem
        | some v => exact (mem_rankPoints _ _ _).mpr hmem
      | some f =>
        cases qv with
        | none => exact List.mem_filter.mpr ⟨hmem, hmatch⟩
        | some v => exact (mem_rankPoints _ _ _).mpr (List.mem_filter.mpr ⟨hmem, hmatch⟩)
    rw [h] at hin
    simp at hin
  · intro h
    rw [List.eq_nil_iff_forall_not_mem]
    intro r hr
    obtain ⟨hdb, hm⟩ := query_points_sub db qv mf r hr
    exact h r hdb hm

/-- A file path returned by query_vectors is the file_path payload field of
a stored point passing the filter. -/
theorem query_vectors_ok_some (db : List Point) (qv : Option (List Int))
    (mf : Option QFilter) (fp : String)
    (h : query_vectors db qv mf = Except.ok (some fp)) :
    ∃ r ∈ db, matchesOpt mf r.payload = true ∧ r.payload.file_path = fp := by
  rw [query_vectors] at h
  by_cases hb : qv = none ∧ mf = none
  · rw [if_pos hb] at h
    simp at h
  · rw [if_neg hb] at h
    cases hq : query_points db qv mf with
    | nil =>
      rw [hq] at h
      simp at h
    | cons r rest =>
      rw [hq] at h
      simp only [payloadGet_file_path] at h
      have hfp : r.payload.file_path = fp := by
        simpa using h
      have hr : r ∈ query_points db qv mf := by
        rw [hq]
        exact List.mem_cons_self r rest
      obtain ⟨hdb, hm⟩ := query_points_sub db qv mf r hr
      exact ⟨r, hdb, hm, hfp⟩

/-- C2 counterexample: supplying both a query vector and a metadata filter
does not fail with the invalid-argument error; the call performs a filtered
similarity query and returns the top match's file path.  Only the
neither-supplied case raises ValueError. -/
theorem query_both_supplied_no_error :
    query_vectors [pointA] (some [1]) (some { must := [], must_not := [] }) =
      Except.ok (some "a.tf") := by rfl

/-- C2 (amended): query_vectors fails with the invalid-argument ValueError
exactly when neither a query vector nor a metadata filter is supplied
(amended from the claim's requirement that supplying both must also fail:
the code performs the query in that case); otherwise it returns none exactly
when no stored point passes the filter, and a returned path is the file_path
payload field of a stored point passing the filter, the top-ranked result. -/
theorem query_vectors_amended (db : List Point) (qv : Option (List Int))
    (mf : Option QFilter) :
    (query_vectors db qv mf =
        Except.error "Either query_vector or metadata_filter must be provided" ↔
      qv = none ∧ mf = none)
    ∧ (¬(qv = none ∧ mf = none) →
        ((query_vectors db qv mf = Except.ok none ↔
            ∀ pt ∈ db, ¬matchesOpt mf pt.payload = true)
         ∧ ∀ fp, query_vectors db qv mf = Except.ok (some fp) →
             ∃ r ∈ db, matchesOpt mf r.payload = true ∧
               r.payload.file_path = fp)) := by
  constructor
  · constructor
    · intro h
      by_contra hb
      rw [query_vectors, if_neg hb] at h
      cases hq : query_points db qv mf with
      | nil =>
        rw [hq] at h
        simp at h
      | cons r rest =>
        rw [hq] at h
        simp at h
    · intro hb
      rw [query_vectors, if_pos hb]
  · intro hb
    constructor
    · rw [query_vectors, if_neg hb]
      constructor
      · intro h
        rw [← query_points_eq_nil db qv mf]
        cases hq : query_points db qv mf with
        | nil => rfl
        | cons r rest =>
          rw [hq] at h
          simp only [payloadGet_file_path] at h
          simp at h
      · intro h
        rw [(query_points_eq_nil db qv mf).mpr h]
    · intro fp h
      exact query_vectors_ok_some db qv mf fp h

/-- Witness for query_vectors_amended: with neither argument supplied the
call fails with the ValueError message. -/
theorem query_vectors_amended_witness :
    query_vectors ([] : List Point) none none =
      Except.error "Either query_vector or metadata_filter must be provided" :=
  (query_vectors_amended [] none none).1.mpr ⟨rfl, rfl⟩

/-- C7: every file task contributes exactly one gathered result (a failing
task is caught as an error value and does not abort or drop sibling tasks),
and process_data reports the aggregate status: the success message when no
task failed, else the message carrying the count of failed files. -/
theorem process_data_aggregates_errors (repos : List (String × List String))
    (runFile : String × String → Except String (List String))
    (h : ¬repos = []) :
    ((processTasks repos).map runFile).length = (processTasks repos).length ∧
    process_data repos runFile =
      (if (processTasks repos).countP (fun t => exceptIsError (runFile t)) = 0 then
        "Processing completed successfully"
      else
        "Processing completed with " ++
          toString ((processTasks repos).countP (fun t => exceptIsError (runFile t)))
          ++ " errors") := by
  constructor
  · exact List.length_map _ _
  · simp only [process_data, if_neg h]
    have hh : (((processTasks repos).map runFile).filter exceptIsError).length =
        (processTasks repos).countP (fun t => exceptIsError (runFile t)) := by
      rw [← List.countP_eq_length_filter, List.countP_map]
      rfl
    rw [hh]
    by_cases hz :
        (processTasks repos).countP (fun t => exceptIsError (runFile t)) = 0
    · rw [if_neg (by omega), if_pos hz]
    · rw [if_pos (by omega), if_neg hz]

/-- Witness for process_data_aggregates_errors: one repository with files a
and b where the task of a fails: the run reports one error and still
gathers both results. -/
theorem process_data_aggregates_errors_witness :
    ((processTasks [("r", ["a", "b"])]).map sampleRunFile).length =
      (processTasks [("r", ["a", "b"])]).length ∧
    process_data [("r", ["a", "b"])] sampleRunFile =
      "Processing completed with 1 errors" := by
  have h := process_data_aggregates_errors [("r", ["a", "b"])] sampleRunFile
    (by decide)
  refine ⟨h.1, ?_⟩
  rw [h.2]
  rfl

/-- A payload matching a filter whose must_not clauses exclude every seen
file path has a file_path outside the seen set. -/
theorem must_not_excludes (must : List FieldCondition) (seen : List String)
    (pl : Payload)
    (h : matchesFilter
      { must := must,
        must_not := seen.map
          (fun fp => { key := "file_path", cond := FieldMatch.value fp }) }
      pl = true) :
    pl.file_path ∉ seen := by
  intro hmem
  rw [matchesFilter, Bool.and_eq_true] at h
  have h2 := h.2
  rw [List.all_eq_true] at h2
  have h3 := h2 _ (List.mem_map_of_mem
    (fun fp => ({ key := "file_path", cond := FieldMatch.value fp } :
      FieldCondition)) hmem)
  simp [matchesCond, payloadGet] at h3

/-- Invariant of the search loop: starting from a duplicate-free result
accumulator contained in the seen set, a successful run returns a
duplicate-free list whose new elements avoid the seen set, and adds at most
as many results as the remaining quota. -/
theorem searchLoop_invariant (db : List Point) (qv : Option (List Int))
    (must : List FieldCondition) (n : Int) :
    ∀ (fuel : Nat) (seen acc out : List String),
      (n - acc.length).toNat ≤ fuel →
      searchLoop db qv must n seen acc = Except.ok out →
      acc.Nodup → (∀ p ∈ acc, p ∈ seen) →
      out.Nodup ∧ (∀ p ∈ out, p ∈ acc ∨ p ∉ seen) ∧
        out.length ≤ acc.length + (n - acc.length).toNat := by
  intro fuel
  induction fuel with
  | zero =>
    intro seen acc out hfuel hrun hnd hsub
    have hge : ¬((acc.length : Int) < n) := by omega
    rw [searchLoop, dif_neg hge] at hrun
    have hae : acc = out := by simpa using hrun
    subst hae
    exact ⟨hnd, fun p hp => Or.inl hp, by omega⟩
  | succ fuel ih =>
    intro seen acc out hfuel hrun hnd hsub
    by_cases hlt : (acc.length : Int) < n
    · rw [searchLoop, dif_pos hlt] at hrun
      cases hq : query_vectors db qv
          (some { must := must,
                  must_not := seen.map
                    (fun fp => { key := "file_path",
                                 cond := FieldMatch.value fp }) }) with
      | error e =>
        rw [hq] at hrun
        simp at hrun
      | ok o =>
        cases o with
        | none =>
          rw [hq] at hrun
          have hae : acc = out := by simpa using hrun
          subst hae
          exact ⟨hnd, fun p hp => Or.inl hp, by omega⟩
        | some fp =>
          rw [hq] at hrun
          by_cases hemp : fp = ""
          · have hae : acc = out := by
              subst hemp
              simpa using hrun
            subst hae
            exact ⟨hnd, fun p hp => Or.inl hp, by omega⟩
          · have hrun2 : searchLoop db qv must n (fp :: seen) (acc ++ [fp]) =
                Except.ok out := by
              simpa [hemp] using hrun
            obtain ⟨r, hrdb, hrm, hrfp⟩ := query_vectors_ok_some db qv _ fp hq
            have hfpnot : fp ∉ seen := by
              rw [← hrfp]
              exact must_not_excludes must seen r.payload hrm
            have hfpacc : fp ∉ acc := fun hin => hfpnot (hsub fp hin)
            have hfuel2 : (n - ((acc ++ [fp]).length : Int)).toNat ≤ fuel := by
              simp only [List.length_append, List.length_cons, List.length_nil]
              omega
            have hnd2 : (acc ++ [fp]).Nodup := by
              rw [List.nodup_append]
              refine ⟨hnd, List.nodup_singleton fp, ?_⟩
              intro a ha hb
              have : a = fp := by simpa using hb
              subst this
              exact hfpacc ha
            have hsub2 : ∀ p ∈ acc ++ [fp], p ∈ fp :: seen := by
              intro p hp
              rcases List.mem_append.mp hp with hp | hp
              · exact List.mem_cons_of_mem fp (hsub p hp)
              · have hpfp : p = fp := by simpa using hp
                rw [hpfp]
                exact List.mem_cons_self fp seen
            obtain ⟨ond, omem, olen⟩ :=
              ih (fp :: seen) (acc ++ [fp]) out hfuel2 hrun2 hnd2 hsub2
            refine ⟨ond, ?_, ?_⟩
            · intro p hp
              rcases omem p hp with hin | hout
              · rcases List.mem_append.mp hin with hin | hin
                · exact Or.inl hin
                · have hpfp : p = fp := by simpa using hin
                  rw [hpfp]
                  exact Or.inr hfpnot
              · exact Or.inr (fun hs => hout (List.mem_cons_of_mem fp hs))
            · simp only [List.length_append, List.length_cons,
                List.length_nil] at olen
              omega
    · rw [searchLoop, dif_neg hlt] at hrun
      have hae : acc = out := by simpa using hrun
      subst hae
      exact ⟨hnd, fun p hp => Or.inl hp, by omega⟩

/-- A successful run of the search helper returns a duplicate-free list,
disjoint from the session's irrelevant paths, of length at most the
requested quota; a non-positive quota yields the empty list. -/
theorem search_files_ok (db : List Point) (embedOne : String → List Int)
    (file_type : String) (n_results : Int) (prompt : Option String)
    (keywords : Option (List String)) (irrelevant : List String)
    (out : List String)
    (h : search_files db embedOne file_type n_results prompt keywords
      irrelevant = Except.ok out) :
    out.Nodup ∧ (∀ p ∈ out, p ∉ irrelevant) ∧ out.length ≤ n_results.toNat ∧
      (n_results ≤ 0 → out = []) := by
  simp only [search_files] at h
  by_cases h1 : prompt = none ∧ keywords = none
  · rw [if_pos h1] at h
    simp at h
  · rw [if_neg h1] at h
    by_cases h2 : ¬prompt = none ∧ ¬keywords = none
    · rw [if_pos h2] at h
      simp at h
    · rw [if_neg h2] at h
      obtain ⟨ond, omem, olen⟩ := searchLoop_invariant db (prompt.map embedOne)
        _ n_results n_results.toNat irrelevant [] out (by simp) h
        List.nodup_nil (by simp)
      refine ⟨ond, ?_, ?_, ?_⟩
      · intro p hp
        rcases omem p hp with hin | hout
        · simp at hin
        · exact hout
      · simpa using olen
      · intro hneg
        have hz : n_results.toNat = 0 := by omega
        have : out.length = 0 := by
          simp only [List.length_nil, Nat.zero_add] at olen
          omega
        exact List.length_eq_zero.mp this

/-- Folding session operations that contain no reset preserves membership
in the irrelevant-paths list. -/
theorem mem_foldl_no_reset (post : List SessionOp)
    (h : SessionOp.reset ∉ post) :
    ∀ (st : List String) (p : String), p ∈ st →
      p ∈ post.foldl irrelevantStep st := by
  induction post with
  | nil =>
    intro st p hp
    simpa using hp
  | cons op t ih =>
    intro st p hp
    have hop : op ≠ SessionOp.reset := by
      intro he
      exact h (he ▸ List.mem_cons_self op t)
    have ht : SessionOp.reset ∉ t := fun hm => h (List.mem_cons_of_mem op hm)
    rw [List.foldl_cons]
    apply ih ht
    cases op with
    | update ps =>
      simp only [irrelevantStep]
      exact List.mem_append.mpr (Or.inl hp)
    | reset => exact absurd rfl hop

/-- C10: whenever the search helper returns successfully, the returned file
paths are pairwise distinct, disjoint from the session's irrelevant set, and
at most max(n_results, 0) many (Int.toNat); for a non-positive n_results the
loop guard fails first and the helper returns the empty list whatever the
store holds.  The claim's hypothesis that the store respects the must_not
exclusion filter is part of the store model (matchesFilter). -/
theorem search_files_spec (db : List Point) (embedOne : String → List Int)
    (file_type : String) (n_results : Int) (prompt : Option String)
    (keywords : Option (List String)) (irrelevant : List String)
    (out : List String)
    (h : search_files db embedOne file_type n_results prompt keywords
      irrelevant = Except.ok out) :
    out.Nodup ∧ (∀ p ∈ out, p ∉ irrelevant) ∧ out.length ≤ n_results.toNat ∧
      (n_results ≤ 0 → out = []) :=
  search_files_ok db embedOne file_type n_results prompt keywords irrelevant
    out h

/-- Witness for search_files_spec: a keyword search over the two-point store
with a.tf marked irrelevant returns exactly b.tf, distinct, disjoint from
the irrelevant set and within the quota. -/
theorem search_files_spec_witness :
    search_files [pointA, pointB] sampleEmbedOne "code" 5 none (some [])
        ["a.tf"] = Except.ok ["b.tf"] ∧
    (["b.tf"] : List String).Nodup ∧
    (∀ p ∈ (["b.tf"] : List String), p ∉ (["a.tf"] : List String)) ∧
    (["b.tf"] : List String).length ≤ (5 : Int).toNat := by
  have hrun : search_files [pointA, pointB] sampleEmbedOne "code" 5 none
      (some []) ["a.tf"] = Except.ok ["b.tf"] := by
    simp [search_files, searchLoop, query_vectors, query_points, matchesFilter,
      matchesCond, payloadGet, hasSub, pointA, pointB, rankPoints, insertRanked]
  have hs := search_files_spec [pointA, pointB] sampleEmbedOne "code" 5 none
    (some []) ["a.tf"] ["b.tf"] hrun
  exact ⟨hrun, hs.1, hs.2.1, hs.2.2.1⟩

/-- C8: a path passed to the update tool is excluded from the results of
every subsequent search of the session as long as no reset occurs after the
update; the reset tool empties the exclusion set. -/
theorem irrelevant_paths_excluded_until_reset (pre post : List SessionOp)
    (ps : List String) (p : String) (hp : p ∈ ps)
    (hnr : SessionOp.reset ∉ post) :
    (∀ (db : List Point) (embedOne : String → List Int) (file_type : String)
      (n_results : Int) (prompt : Option String)
      (keywords : Option (List String)) (out : List String),
      search_files db embedOne file_type n_results prompt keywords
        (irrelevantAfter (pre ++ SessionOp.update ps :: post)) =
        Except.ok out →
      p ∉ out)
    ∧ (∀ ops : List SessionOp, irrelevantAfter (ops ++ [SessionOp.reset]) = []) := by
  constructor
  · intro db embedOne file_type n_results prompt keywords out hrun
    have hmem : p ∈ irrelevantAfter (pre ++ SessionOp.update ps :: post) := by
      rw [irrelevantAfter, List.foldl_append, List.foldl_cons]
      apply mem_foldl_no_reset post hnr
      simp only [irrelevantStep]
      exact List.mem_append.mpr (Or.inr hp)
    have hs := search_files_ok db embedOne file_type n_results prompt keywords
      (irrelevantAfter (pre ++ SessionOp.update ps :: post)) out hrun
    intro hout
    exact hs.2.1 p hout hmem
  · intro ops
    rw [irrelevantAfter, List.foldl_append]
    simp [irrelevantStep]

/-- Witness for irrelevant_paths_excluded_until_reset: after marking a.tf
irrelevant, the keyword search over the two-point store returns only b.tf,
and a.tf is not among the results; a final reset empties the set. -/
theorem irrelevant_paths_excluded_until_reset_witness :
    search_files [pointA, pointB] sampleEmbedOne "code" 5 none (some [])
        (irrelevantAfter [SessionOp.update ["a.tf"]]) = Except.ok ["b.tf"] ∧
    "a.tf" ∉ (["b.tf"] : List String) ∧
    irrelevantAfter [SessionOp.update ["a.tf"], SessionOp.reset] = [] := by
  have hrun : search_files [pointA, pointB] sampleEmbedOne "code" 5 none
      (some []) (irrelevantAfter [SessionOp.update ["a.tf"]]) =
      Except.ok ["b.tf"] := by
    simp [search_files, searchLoop, query_vectors, query_points, matchesFilter,
      matchesCond, payloadGet, hasSub, pointA, pointB, rankPoints, insertRanked,
      irrelevantAfter, irrelevantStep]
  have hth := irrelevant_paths_excluded_until_reset [] [] ["a.tf"] "a.tf"
    (List.mem_singleton.mpr rfl) (by simp)
  exact ⟨hrun, hth.1 [pointA, pointB] sampleEmbedOne "code" 5 none (some [])
    ["b.tf"] hrun, hth.2 [SessionOp.update ["a.tf"]]⟩

/-- Witness for chunk_shape_amended at (max_chars, overlap) = (3, 2): the
empty text gives no chunks and the one-character text gives itself as the
single chunk. -/
theorem chunk_shape_amended_witness :
    chunk [] 3 2 = [] ∧ chunk ['a'] 3 2 = [['a']] :=
  ⟨(chunk_shape_amended 3 2 (by decide)).2.1,
   (chunk_shape_amended 3 2 (by decide)).2.2.1 ['a'] (by decide) (by decide)⟩
